import Mathlib

/-!
# Verification of the orbit_simulator ground-path sampler

A shallow embedding of the repository's ground-path sampling routine
(`ground_path(satellite, date_from, date_to, freq)`) together with proofs of
the specified properties: grid construction, the ascending flag, the orbit
counter, input validation, fail-fast propagation of oracle errors,
determinism, the UTC time index, and the CSV round trip.

The `ground_path` module itself is not shipped under `src/` (only the
notebook that calls it and its recorded output are), so the sampler is
modelled from the specification: timestamps are seconds on an absolute UTC
scale (`ℤ`), real-valued coordinates are rationals (`ℚ`), and the external
propagation oracle is an opaque function that may fail at any timestamp.
-/

namespace OrbitSim

/-- A position returned by the propagation oracle for one timestamp:
Earth-centered-inertial Cartesian coordinates `X, Y, Z` (kilometers) and
geographic coordinates `lat, lon` (degrees) and `elevation` (kilometers).
Pure pass-through data; the physics is outside the model. -/
structure Position where
  X : ℚ
  Y : ℚ
  Z : ℚ
  lat : ℚ
  lon : ℚ
  elevation : ℚ
deriving DecidableEq

/-- One row of the Ground Path table.  `datetime` is the sample's timestamp
in seconds on the UTC scale; `tzOffset` is the explicit UTC offset (in
seconds) carried by the timezone-aware output timestamp, always `0` for the
sampler's output. -/
structure Sample where
  datetime : ℤ
  tzOffset : ℤ
  pos : Position
  ascending : Bool
  orbit : ℕ
deriving DecidableEq

/-- Error taxonomy of the sampler, modelled from the spec: malformed window
or non-positive frequency, and oracle failure. -/
inductive SampleError where
  | invalidArgument
  | propagationError
deriving DecidableEq

/-- Modelled from the spec: the number of grid points of the half-open time
grid `t_i = date_from + i * freq` with `t_i < date_to` (the missing
`ground_path.py` builds this grid with a left-closed pandas date range).
For a valid window this is the ceiling of `(date_to - date_from) / freq`. -/
def gridSize (date_from date_to freq : ℤ) : ℕ :=
  ((date_to - date_from).toNat + freq.toNat - 1) / freq.toNat

/-- Modelled from the spec: the equally spaced half-open time grid
`t_0 = date_from, t_1 = t_0 + freq, …` while `t_i < date_to`. -/
def timeGrid (date_from date_to freq : ℤ) : List ℤ :=
  (List.range (gridSize date_from date_to freq)).map
    (fun i : ℕ => date_from + (i : ℤ) * freq)

/-- Invoke the oracle once per grid timestamp, in order; a single failure
makes the whole traversal fail (no retry, no skipping). -/
def mapOracle (prop : ℤ → Option Position) : List ℤ → Option (List Position)
  | [] => some []
  | t :: ts =>
    match prop t, mapOracle prop ts with
    | some p, some ps => some (p :: ps)
    | _, _ => none

/-- Sequential pass computing the derived columns, carrying the running
timestamp `t`, the previous sample's position `prev`, its ascending flag
`pa` and its orbit counter `o`.  Each new sample's flag compares its
latitude with the previous one; the orbit counter increments exactly on a
false-to-true transition of the flag. -/
def buildGo (freq : ℤ) (t : ℤ) (prev : Position) (pa : Bool) (o : ℕ) :
    List Position → List Sample
  | [] => []
  | p :: ps =>
    Sample.mk t 0 p (decide (prev.lat ≤ p.lat))
        (if pa = false ∧ prev.lat ≤ p.lat then o + 1 else o) ::
      buildGo freq (t + freq) p (decide (prev.lat ≤ p.lat))
        (if pa = false ∧ prev.lat ≤ p.lat then o + 1 else o) ps

/-- Assemble the Ground Path rows from the raw oracle positions.  Modelled
from the spec: the first sample's orbit counter is `0`; its ascending flag
has no prior latitude to compare against and is set to `true`, the
convention shown by the recorded reference run's first row. -/
def build (t0 freq : ℤ) : List Position → List Sample
  | [] => []
  | p :: ps => Sample.mk t0 0 p true 0 :: buildGo freq (t0 + freq) p true 0 ps

/-- Modelled from the spec: the ground-path sampler
`sample(propagator, date_from, date_to, freq)` of the missing
`ground_path.py`.  Validates the window before any oracle call, walks the
half-open time grid invoking the oracle once per timestamp, fails fast on
oracle failure, and derives the `ascending` and `orbit` columns. -/
def ground_path (prop : ℤ → Option Position) (date_from date_to freq : ℤ) :
    Except SampleError (List Sample) :=
  if freq ≤ 0 then Except.error SampleError.invalidArgument
  else if date_to ≤ date_from then Except.error SampleError.invalidArgument
  else
    match mapOracle prop (timeGrid date_from date_to freq) with
    | none => Except.error SampleError.propagationError
    | some ps => Except.ok (build date_from freq ps)

/-! ### CSV serialization

Modelled from the spec: the Ground Path is exported as a comma-separated
table with a header row plus one row per sample, `datetime` rendered as an
ISO-8601 timestamp with an explicit UTC offset, and parsed back by an
independent reader.  Timestamps are converted between epoch seconds and
Gregorian civil dates with the standard era/century/year decomposition;
real values are rendered in fixed-point decimal with six fractional
digits, the precision used for the notebook's displayed output. -/

/-- Day of era (period of 146097 days) for day `z` since 1970-01-01. -/
def doeOf (z : ℕ) : ℕ := (z + 719468) % 146097

/-- Era index (periods of 400 Gregorian years) for day `z`. -/
def eraOf (z : ℕ) : ℕ := (z + 719468) / 146097

/-- Century within the era (0–3) for day `z`. -/
def cenOf (z : ℕ) : ℕ := (4 * doeOf z + 3) / 146097

/-- Day within the century for day `z`. -/
def docOf (z : ℕ) : ℕ := doeOf z - 36524 * cenOf z

/-- Year within the century (0–99) for day `z`. -/
def yocOf (z : ℕ) : ℕ := (4 * docOf z + 3) / 1461

/-- Year of era (0–399, March-based) for day `z`. -/
def yoeOf (z : ℕ) : ℕ := 100 * cenOf z + yocOf z

/-- Day of the March-based year for day `z`. -/
def doyOf (z : ℕ) : ℕ := docOf z - (365 * yocOf z + yocOf z / 4)

/-- March-based month index (0 = March … 11 = February) for day `z`. -/
def mpOf (z : ℕ) : ℕ := (5 * doyOf z + 2) / 153

/-- Civil day of month (1–31) for day `z` since 1970-01-01. -/
def dayOf (z : ℕ) : ℕ := doyOf z - (153 * mpOf z + 2) / 5 + 1

/-- Civil month (1–12) for day `z` since 1970-01-01. -/
def monthOf (z : ℕ) : ℕ := if mpOf z < 10 then mpOf z + 3 else mpOf z - 9

/-- Civil year for day `z` since 1970-01-01. -/
def yearOf (z : ℕ) : ℕ := yoeOf z + 400 * eraOf z + (if monthOf z ≤ 2 then 1 else 0)

/-- Days since 1970-01-01 of the civil date `y-m-d` (proleptic Gregorian,
used by the CSV reader to recover the timestamp). -/
def daysFromCivil (y m d : ℕ) : ℕ :=
  (if m ≤ 2 then y - 1 else y) / 400 * 146097
  + ((if m ≤ 2 then y - 1 else y) % 400) * 365
  + (if m ≤ 2 then y - 1 else y) % 400 / 4
  - (if m ≤ 2 then y - 1 else y) % 400 / 100
  + ((153 * (if 2 < m then m - 3 else m + 9) + 2) / 5 + d - 1)
  - 719468

/-- The decimal digit character for `n` (meaningful for `n < 10`). -/
def digitChar (n : ℕ) : Char := Char.ofNat (48 + n)

/-- The numeric value of a decimal digit character. -/
def digitVal (c : Char) : ℕ := c.toNat - 48

/-- Whether `c` is a decimal digit character. -/
def isDigitChar (c : Char) : Bool := decide (48 ≤ c.toNat) && decide (c.toNat ≤ 57)

/-- The numeric value of a digit string read left to right. -/
def digitsVal (cs : List Char) : ℕ := cs.foldl (fun a c => 10 * a + digitVal c) 0

/-- Every character of the string is a decimal digit character. -/
def IsDigits (cs : List Char) : Prop := ∀ c ∈ cs, ∃ d, d < 10 ∧ c = digitChar d

/-- Parse a non-empty all-digit string as a natural number. -/
def parseNat (cs : List Char) : Option ℕ :=
  if cs ≠ [] ∧ cs.all isDigitChar = true then some (digitsVal cs) else none

/-- Render a natural number in decimal, most significant digit first. -/
def renderNat (n : ℕ) : List Char :=
  if n = 0 then [digitChar 0] else ((Nat.digits 10 n).map digitChar).reverse

/-- Render `n` as exactly two decimal digits (zero padded, `n < 100`). -/
def pad2 (n : ℕ) : List Char := [digitChar (n / 10 % 10), digitChar (n % 10)]

/-- Render `n` as exactly four decimal digits (zero padded, `n < 10000`). -/
def pad4 (n : ℕ) : List Char :=
  [digitChar (n / 1000 % 10), digitChar (n / 100 % 10), digitChar (n / 10 % 10),
   digitChar (n % 10)]

/-- Render `n` as exactly six decimal digits (zero padded, `n < 1000000`). -/
def pad6 (n : ℕ) : List Char :=
  [digitChar (n / 100000 % 10), digitChar (n / 10000 % 10), digitChar (n / 1000 % 10),
   digitChar (n / 100 % 10), digitChar (n / 10 % 10), digitChar (n % 10)]

/-- Render an epoch-seconds timestamp as `YYYY-MM-DD HH:MM:SS+00:00`, the
ISO-8601 form with explicit UTC offset used by the exported CSV. -/
def renderDateTime (t : ℤ) : List Char :=
  pad4 (yearOf (t.toNat / 86400)) ++ '-' :: pad2 (monthOf (t.toNat / 86400)) ++
  '-' :: pad2 (dayOf (t.toNat / 86400)) ++ ' ' :: pad2 (t.toNat % 86400 / 3600) ++
  ':' :: pad2 (t.toNat % 86400 % 3600 / 60) ++ ':' :: pad2 (t.toNat % 86400 % 60) ++
  ['+', '0', '0', ':', '0', '0']

/-- Parse a `YYYY-MM-DD HH:MM:SS+00:00` timestamp back to epoch seconds. -/
def parseDateTime (cs : List Char) : Option ℤ :=
  match cs with
  | [y1, y2, y3, y4, '-', m1, m2, '-', d1, d2, ' ', h1, h2, ':', i1, i2, ':', s1, s2,
     '+', '0', '0', ':', '0', '0'] =>
    if (isDigitChar y1 && isDigitChar y2 && isDigitChar y3 && isDigitChar y4 &&
        isDigitChar m1 && isDigitChar m2 && isDigitChar d1 && isDigitChar d2 &&
        isDigitChar h1 && isDigitChar h2 && isDigitChar i1 && isDigitChar i2 &&
        isDigitChar s1 && isDigitChar s2) = true then
      some (((daysFromCivil
            (1000 * digitVal y1 + 100 * digitVal y2 + 10 * digitVal y3 + digitVal y4)
            (10 * digitVal m1 + digitVal m2)
            (10 * digitVal d1 + digitVal d2)) * 86400
          + (10 * digitVal h1 + digitVal h2) * 3600
          + (10 * digitVal i1 + digitVal i2) * 60
          + (10 * digitVal s1 + digitVal s2) : ℕ) : ℤ)
    else none
  | _ => none

/-- The rational scaled to fixed-point millionths, rounded to nearest. -/
def ratScaled (q : ℚ) : ℤ := round (q * 1000000)

/-- The value actually stored in the CSV for `q`: `q` rounded to six
decimal places (the notebook's displayed precision). -/
def rnd (q : ℚ) : ℚ := (ratScaled q : ℚ) / 1000000

/-- Render a rational in fixed-point decimal with six fractional digits. -/
def renderRat (q : ℚ) : List Char :=
  (if ratScaled q < 0 then ['-'] else []) ++
    (renderNat ((ratScaled q).natAbs / 1000000) ++
      '.' :: pad6 ((ratScaled q).natAbs % 1000000))

/-- Split a character string at every occurrence of `sep`. -/
def splitOnChar (sep : Char) : List Char → List (List Char)
  | [] => [[]]
  | c :: cs =>
    if c = sep then [] :: splitOnChar sep cs
    else
      match splitOnChar sep cs with
      | [] => [[c]]
      | r :: rs => (c :: r) :: rs

/-- Parse an unsigned fixed-point decimal with six fractional digits. -/
def parseRatMag (cs : List Char) : Option ℚ :=
  match splitOnChar '.' cs with
  | [ip, fp] =>
    match parseNat ip, parseNat fp with
    | some i, some f =>
      if fp.length = 6 then some (((i * 1000000 + f : ℕ) : ℚ) / 1000000) else none
    | _, _ => none
  | _ => none

/-- Parse a signed fixed-point decimal with six fractional digits. -/
def parseRat (cs : List Char) : Option ℚ :=
  if cs.head? = some '-' then (parseRatMag cs.tail).map (fun q => -q)
  else parseRatMag cs

/-- Render a boolean the way the exported table does. -/
def renderBool (b : Bool) : List Char :=
  if b then ['T', 'r', 'u', 'e'] else ['F', 'a', 'l', 's', 'e']

/-- Parse a boolean cell. -/
def parseBool (cs : List Char) : Option Bool :=
  if cs = ['T', 'r', 'u', 'e'] then some true
  else if cs = ['F', 'a', 'l', 's', 'e'] then some false
  else none

/-- One CSV data row: the nine columns of a Position Sample, comma
separated. -/
def renderRow (s : Sample) : List Char :=
  renderDateTime s.datetime ++
    (',' :: (renderRat s.pos.X ++
      (',' :: (renderRat s.pos.Y ++
        (',' :: (renderRat s.pos.Z ++
          (',' :: (renderRat s.pos.lat ++
            (',' :: (renderRat s.pos.lon ++
              (',' :: (renderRat s.pos.elevation ++
                (',' :: (renderBool s.ascending ++
                  (',' :: renderNat s.orbit)))))))))))))))

/-- Parse the nine cells of one CSV data row. -/
def parseCells : List (List Char) → Option Sample
  | [c1, c2, c3, c4, c5, c6, c7, c8, c9] => do
    let t ← parseDateTime c1
    let x ← parseRat c2
    let y ← parseRat c3
    let z ← parseRat c4
    let la ← parseRat c5
    let lo ← parseRat c6
    let el ← parseRat c7
    let asc ← parseBool c8
    let orb ← parseNat c9
    pure (Sample.mk t 0 (Position.mk x y z la lo el) asc orb)
  | _ => none

/-- Parse one CSV data row back into a Position Sample. -/
def parseRow (cs : List Char) : Option Sample :=
  parseCells (splitOnChar ',' cs)

/-- The CSV header row. -/
def csvHeader : List Char :=
  ['d', 'a', 't', 'e', 't', 'i', 'm', 'e', ',', 'X', ',', 'Y', ',', 'Z', ',',
   'l', 'a', 't', ',', 'l', 'o', 'n', ',', 'e', 'l', 'e', 'v', 'a', 't', 'i', 'o', 'n',
   ',', 'a', 's', 'c', 'e', 'n', 'd', 'i', 'n', 'g', ',', 'o', 'r', 'b', 'i', 't']

/-- Join lines with a separator character between consecutive lines. -/
def joinSep (sep : Char) : List (List Char) → List Char
  | [] => []
  | [r] => r
  | r :: rs => r ++ sep :: joinSep sep rs

/-- Serialize a Ground Path to CSV text: a header row plus one data row
per sample, newline separated. -/
def toCsv (gp : List Sample) : List Char :=
  joinSep '\n' (csvHeader :: gp.map renderRow)

/-- Parse a list of CSV data rows. -/
def parseRows : List (List Char) → Option (List Sample)
  | [] => some []
  | r :: rs => do
    let s ← parseRow r
    let ss ← parseRows rs
    pure (s :: ss)

/-- Parse CSV text back into a Ground Path: check the header row, then
parse each data row. -/
def parseCsv (cs : List Char) : Option (List Sample) :=
  match splitOnChar '\n' cs with
  | [] => none
  | h :: rows => if h = csvHeader then parseRows rows else none

/-- The sample as reproduced by a CSV round trip: timestamps and the
boolean and integer columns survive exactly, real columns are rounded to
six decimal places. -/
def approxPosition (p : Position) : Position :=
  Position.mk (rnd p.X) (rnd p.Y) (rnd p.Z) (rnd p.lat) (rnd p.lon) (rnd p.elevation)

/-- The row as reproduced by a CSV round trip. -/
def approxSample (s : Sample) : Sample :=
  Sample.mk s.datetime 0 (approxPosition s.pos) s.ascending s.orbit

/-- The relation between one Ground Path row and the next: timestamps step
by exactly `freq`, the offset stays UTC, the ascending flag compares the
two latitudes, and the orbit counter increments exactly on a false-to-true
transition of the flag. -/
def step (freq : ℤ) (s s' : Sample) : Prop :=
  s'.datetime = s.datetime + freq ∧
  s'.tzOffset = 0 ∧
  s'.ascending = decide (s.pos.lat ≤ s'.pos.lat) ∧
  s'.orbit = s.orbit + (if s.ascending = false ∧ s'.ascending = true then 1 else 0)

/-- The origin position, used for concrete evaluations. -/
def pos0 : Position := Position.mk 0 0 0 0 0 0

/-- A propagation oracle that always succeeds with the origin position;
used for concrete evaluations. -/
def oracle0 : ℤ → Option Position :=
  fun _ => some pos0

/-- A second always-succeeding oracle, pointwise equal to `oracle0` but a
distinct definition; used to exercise determinism. -/
def oracle0b : ℤ → Option Position :=
  fun _ => some pos0

/-- An oracle that fails at timestamp 30 and succeeds elsewhere; used to
exercise fail-fast propagation of oracle errors. -/
def oracleFail : ℤ → Option Position :=
  fun t => if t = 30 then none else some pos0

/-- The Ground Path computed by the sampler for the window `[0, 100)` at
30-second frequency under `oracle0`; a concrete four-row table. -/
def gp4 : List Sample := build 0 30 ((timeGrid 0 100 30).map (fun _ => pos0))

/-- The Ground Path computed by the sampler for a 24-hour window at
30-second frequency under `oracle0` (the notebook's reference run shape). -/
def gpDay : List Sample := build 0 30 ((timeGrid 0 86400 30).map (fun _ => pos0))

/-- A one-row Ground Path with the notebook's start timestamp
(2018-08-01T00:00:00Z = 1533081600 epoch seconds); used for concrete
evaluations of the CSV round trip. -/
def gpW : List Sample := [Sample.mk 1533081600 0 pos0 true 0]

theorem buildGo_length (freq : ℤ) (ps : List Position) :
    ∀ (t : ℤ) (prev : Position) (pa : Bool) (o : ℕ),
      (buildGo freq t prev pa o ps).length = ps.length := by
  induction ps with
  | nil => intro t prev pa o; rfl
  | cons p ps ih =>
    intro t prev pa o
    simp only [buildGo, List.length_cons, ih]

theorem build_length (t0 freq : ℤ) (ps : List Position) :
    (build t0 freq ps).length = ps.length := by
  cases ps with
  | nil => rfl
  | cons p ps => simp only [build, List.length_cons, buildGo_length]

theorem buildGo_get_datetime (freq : ℤ) (ps : List Position) :
    ∀ (t : ℤ) (prev : Position) (pa : Bool) (o : ℕ) (i : ℕ)
      (hi : i < (buildGo freq t prev pa o ps).length),
      ((buildGo freq t prev pa o ps).get ⟨i, hi⟩).datetime = t + i * freq := by
  induction ps with
  | nil => intro t prev pa o i hi; simp [buildGo] at hi
  | cons p ps ih =>
    intro t prev pa o i hi
    cases i with
    | zero => simp [buildGo]
    | succ j =>
      have hj : j < (buildGo freq (t + freq) p (decide (prev.lat ≤ p.lat))
          (if pa = false ∧ prev.lat ≤ p.lat then o + 1 else o) ps).length := by
        simpa [buildGo, buildGo_length] using hi
      have := ih (t + freq) p (decide (prev.lat ≤ p.lat))
        (if pa = false ∧ prev.lat ≤ p.lat then o + 1 else o) j hj
      simp only [buildGo, List.get_cons_succ]
      rw [this]
      push_cast
      ring

theorem build_get_datetime (t0 freq : ℤ) (ps : List Position) (i : ℕ)
    (hi : i < (build t0 freq ps).length) :
    ((build t0 freq ps).get ⟨i, hi⟩).datetime = t0 + i * freq := by
  cases ps with
  | nil => simp [build] at hi
  | cons p ps =>
    cases i with
    | zero => simp [build]
    | succ j =>
      have hj : j < (buildGo freq (t0 + freq) p true 0 ps).length := by
        simpa [build, buildGo_length] using hi
      have := buildGo_get_datetime freq ps (t0 + freq) p true 0 j hj
      simp only [build, List.get_cons_succ]
      rw [this]
      push_cast
      ring

theorem buildGo_get_pos (freq : ℤ) (ps : List Position) :
    ∀ (t : ℤ) (prev : Position) (pa : Bool) (o : ℕ) (i : ℕ)
      (hi : i < (buildGo freq t prev pa o ps).length)
      (hi' : i < ps.length),
      ((buildGo freq t prev pa o ps).get ⟨i, hi⟩).pos = ps.get ⟨i, hi'⟩ := by
  induction ps with
  | nil => intro t prev pa o i hi; simp [buildGo] at hi
  | cons p ps ih =>
    intro t prev pa o i hi hi'
    cases i with
    | zero => simp [buildGo]
    | succ j =>
      have hj : j < (buildGo freq (t + freq) p (decide (prev.lat ≤ p.lat))
          (if pa = false ∧ prev.lat ≤ p.lat then o + 1 else o) ps).length := by
        simpa [buildGo, buildGo_length] using hi
      have hj' : j < ps.length := by simpa using hi'
      have := ih (t + freq) p (decide (prev.lat ≤ p.lat))
        (if pa = false ∧ prev.lat ≤ p.lat then o + 1 else o) j hj hj'
      simpa [buildGo, List.get_cons_succ] using this

theorem buildGo_tzOffset (freq : ℤ) (ps : List Position) :
    ∀ (t : ℤ) (prev : Position) (pa : Bool) (o : ℕ) (s : Sample),
      s ∈ buildGo freq t prev pa o ps → s.tzOffset = 0 := by
  induction ps with
  | nil => intro t prev pa o s hs; simp [buildGo] at hs
  | cons p ps ih =>
    intro t prev pa o s hs
    simp only [buildGo, List.mem_cons] at hs
    rcases hs with h | h
    · rw [h]
    · exact ih _ _ _ _ s h

theorem build_tzOffset (t0 freq : ℤ) (ps : List Position) (s : Sample)
    (hs : s ∈ build t0 freq ps) : s.tzOffset = 0 := by
  cases ps with
  | nil => simp [build] at hs
  | cons p ps =>
    simp only [build, List.mem_cons] at hs
    rcases hs with h | h
    · rw [h]
    · exact buildGo_tzOffset freq ps _ _ _ _ s h

theorem chain_buildGo (freq : ℤ) (ps : List Position) :
    ∀ (t : ℤ) (prev : Position) (pa : Bool) (o : ℕ) (x : Sample),
      x.pos = prev → x.ascending = pa → x.orbit = o → x.datetime + freq = t →
      List.Chain' (step freq) (x :: buildGo freq t prev pa o ps) := by
  induction ps with
  | nil => intro t prev pa o x _ _ _ _; simp [buildGo]
  | cons p ps ih =>
    intro t prev pa o x hpos hasc horb hdt
    rw [buildGo, List.chain'_cons]
    constructor
    · refine ⟨by rw [hdt], rfl, by rw [hpos], ?_⟩
      rw [hasc, horb]
      by_cases h1 : pa = false
      · by_cases h2 : prev.lat ≤ p.lat
        · simp [h1, h2]
        · simp [h1, h2]
      · simp [h1]
    · exact ih (t + freq) p (decide (prev.lat ≤ p.lat))
        (if pa = false ∧ prev.lat ≤ p.lat then o + 1 else o)
        (Sample.mk t 0 p (decide (prev.lat ≤ p.lat))
          (if pa = false ∧ prev.lat ≤ p.lat then o + 1 else o))
        rfl rfl rfl rfl

theorem chain_build (t0 freq : ℤ) (ps : List Position) :
    List.Chain' (step freq) (build t0 freq ps) := by
  cases ps with
  | nil => simp [build]
  | cons p ps =>
    exact chain_buildGo freq ps (t0 + freq) p true 0
      (Sample.mk t0 0 p true 0) rfl rfl rfl rfl

theorem mapOracle_length (prop : ℤ → Option Position) (ts : List ℤ)
    (ps : List Position) (h : mapOracle prop ts = some ps) :
    ps.length = ts.length := by
  induction ts generalizing ps with
  | nil => simp only [mapOracle, Option.some.injEq] at h; rw [← h]; rfl
  | cons t ts ih =>
    rw [mapOracle] at h
    cases hp : prop t with
    | none => rw [hp] at h; exact absurd h (by simp)
    | some p =>
      rw [hp] at h
      cases hps : mapOracle prop ts with
      | none => rw [hps] at h; exact absurd h (by simp)
      | some ps' =>
        rw [hps] at h
        simp only [Option.some.injEq] at h
        rw [← h]
        simp [ih ps' hps]

theorem mapOracle_none (prop : ℤ → Option Position) (ts : List ℤ) (u : ℤ)
    (hu : u ∈ ts) (hfail : prop u = none) : mapOracle prop ts = none := by
  induction ts with
  | nil => simp at hu
  | cons t ts ih =>
    rw [mapOracle]
    rcases List.mem_cons.mp hu with h | h
    · rw [h] at hfail; rw [hfail]
    · rw [ih h]
      cases prop t <;> rfl

theorem mapOracle_map (prop : ℤ → Option Position) (f : ℤ → Position)
    (hf : ∀ t, prop t = some (f t)) (ts : List ℤ) :
    mapOracle prop ts = some (ts.map f) := by
  induction ts with
  | nil => rfl
  | cons t ts ih => rw [mapOracle, hf, ih]; rfl

theorem ground_path_ok (prop : ℤ → Option Position) (a b f : ℤ)
    (gp : List Sample) (h : ground_path prop a b f = Except.ok gp) :
    0 < f ∧ a < b ∧
      ∃ ps, mapOracle prop (timeGrid a b f) = some ps ∧ gp = build a f ps := by
  rw [ground_path] at h
  by_cases hf : f ≤ 0
  · rw [if_pos hf] at h; exact absurd h (by simp)
  · rw [if_neg hf] at h
    by_cases hab : b ≤ a
    · rw [if_pos hab] at h; exact absurd h (by simp)
    · rw [if_neg hab] at h
      refine ⟨by omega, by omega, ?_⟩
      cases hm : mapOracle prop (timeGrid a b f) with
      | none => rw [hm] at h; exact absurd h (by simp)
      | some ps =>
        rw [hm] at h
        simp only [Except.ok.injEq] at h
        exact ⟨ps, rfl, h.symm⟩

theorem timeGrid_length (a b f : ℤ) :
    (timeGrid a b f).length = gridSize a b f := by
  rw [timeGrid, List.length_map, List.length_range]

theorem timeGrid_get (a b f : ℤ) (i : ℕ) (hi : i < (timeGrid a b f).length) :
    (timeGrid a b f).get ⟨i, hi⟩ = a + i * f := by
  simp only [timeGrid, List.get_eq_getElem, List.getElem_map, List.getElem_range]

theorem gridSize_pos (a b f : ℤ) (hf : 0 < f) (hab : a < b) :
    0 < gridSize a b f := by
  have h1 : 0 < f.toNat := by omega
  have h2 : 1 * f.toNat ≤ (b - a).toNat + f.toNat - 1 := by omega
  exact (Nat.le_div_iff_mul_le h1).mpr h2

theorem grid_point_lt (a b f : ℤ) (hf : 0 < f) (hab : a < b) (i : ℕ)
    (hi : i < gridSize a b f) : a + (i : ℤ) * f < b := by
  have h1 : 0 < f.toNat := by omega
  have h2 : (i + 1) * f.toNat ≤ (b - a).toNat + f.toNat - 1 :=
    (Nat.le_div_iff_mul_le h1).mp hi
  obtain ⟨A, hA⟩ : ∃ A, A = i * f.toNat := ⟨_, rfl⟩
  have h3 : A + f.toNat ≤ (b - a).toNat + f.toNat - 1 := by
    have he : (i + 1) * f.toNat = A + f.toNat := by rw [hA]; ring
    omega
  have h4 : A < (b - a).toNat := by omega
  have hc : ((A : ℕ) : ℤ) = (i : ℤ) * f := by
    rw [hA]
    push_cast
    rw [Int.toNat_of_nonneg (le_of_lt hf)]
  have h5 : ((A : ℕ) : ℤ) < ((b - a).toNat : ℤ) := by exact_mod_cast h4
  rw [hc] at h5
  omega

theorem grid_end_ge (a b f : ℤ) (hf : 0 < f) (hab : a < b) :
    b ≤ a + (gridSize a b f : ℤ) * f := by
  have h1 : 0 < f.toNat := by omega
  have h2 : ((b - a).toNat + f.toNat - 1) / f.toNat < gridSize a b f + 1 := by
    unfold gridSize; omega
  have h3 : (b - a).toNat + f.toNat - 1 < (gridSize a b f + 1) * f.toNat :=
    (Nat.div_lt_iff_lt_mul h1).mp h2
  obtain ⟨A, hA⟩ : ∃ A, A = gridSize a b f * f.toNat := ⟨_, rfl⟩
  have h4 : (b - a).toNat + f.toNat - 1 < A + f.toNat := by
    have he : (gridSize a b f + 1) * f.toNat = A + f.toNat := by rw [hA]; ring
    omega
  have h5 : (b - a).toNat ≤ A := by omega
  have hc : ((A : ℕ) : ℤ) = (gridSize a b f : ℤ) * f := by
    rw [hA]
    push_cast
    rw [Int.toNat_of_nonneg (le_of_lt hf)]
  have h6 : ((b - a).toNat : ℤ) ≤ ((A : ℕ) : ℤ) := by exact_mod_cast h5
  rw [hc] at h6
  omega

theorem gridSize_cast (a b f : ℤ) (hf : 0 < f) (hab : a < b) :
    (gridSize a b f : ℤ) = (b - a + f - 1) / f := by
  unfold gridSize
  rw [Int.ofNat_ediv]
  have h1 : (((b - a).toNat + f.toNat - 1 : ℕ) : ℤ) = b - a + f - 1 := by omega
  have h2 : ((f.toNat : ℕ) : ℤ) = f := by omega
  rw [h1, h2]

theorem ground_path_chain (prop : ℤ → Option Position) (a b f : ℤ)
    (gp : List Sample) (h : ground_path prop a b f = Except.ok gp) :
    List.Chain' (step f) gp := by
  obtain ⟨_, _, ps, _, hgp⟩ := ground_path_ok prop a b f gp h
  rw [hgp]
  exact chain_build a f ps

theorem ground_path_step (prop : ℤ → Option Position) (a b f : ℤ)
    (gp : List Sample) (h : ground_path prop a b f = Except.ok gp)
    (i : ℕ) (hi : i + 1 < gp.length) :
    step f (gp.get ⟨i, by omega⟩) (gp.get ⟨i + 1, hi⟩) := by
  have hc := ground_path_chain prop a b f gp h
  exact List.chain'_iff_get.mp hc i (by omega)

theorem ground_path_length (prop : ℤ → Option Position) (a b f : ℤ)
    (gp : List Sample) (h : ground_path prop a b f = Except.ok gp) :
    gp.length = gridSize a b f := by
  obtain ⟨_, _, ps, hm, hgp⟩ := ground_path_ok prop a b f gp h
  rw [hgp, build_length, mapOracle_length prop _ ps hm, timeGrid_length]

theorem ground_path_datetime (prop : ℤ → Option Position) (a b f : ℤ)
    (gp : List Sample) (h : ground_path prop a b f = Except.ok gp)
    (i : ℕ) (hi : i < gp.length) :
    (gp.get ⟨i, hi⟩).datetime = a + i * f := by
  obtain ⟨_, _, ps, _, hgp⟩ := ground_path_ok prop a b f gp h
  subst hgp
  exact build_get_datetime a f ps i hi

theorem ground_path_orbit_le (prop : ℤ → Option Position) (a b f : ℤ)
    (gp : List Sample) (h : ground_path prop a b f = Except.ok gp) :
    ∀ (d i : ℕ) (hd : i + d < gp.length),
      (gp.get ⟨i, by omega⟩).orbit ≤ (gp.get ⟨i + d, hd⟩).orbit := by
  intro d
  induction d with
  | zero => intro i hd; exact le_refl _
  | succ e ih =>
    intro i hd
    have h1 := ih i (by omega)
    have h2 := ground_path_step prop a b f gp h (i + e) (by omega)
    have h3 : (gp.get ⟨i + e, by omega⟩).orbit ≤ (gp.get ⟨i + e + 1, by omega⟩).orbit := by
      rw [h2.2.2.2]
      split_ifs <;> omega
    exact le_trans h1 h3

theorem build_head_fields (t0 freq : ℤ) (ps : List Position)
    (h0 : 0 < (build t0 freq ps).length) :
    ((build t0 freq ps).get ⟨0, h0⟩).orbit = 0 ∧
    ((build t0 freq ps).get ⟨0, h0⟩).ascending = true ∧
    ((build t0 freq ps).get ⟨0, h0⟩).datetime = t0 := by
  cases ps with
  | nil => simp [build] at h0
  | cons p ps => exact ⟨rfl, rfl, rfl⟩

theorem gp4_ok : ground_path oracle0 0 100 30 = Except.ok gp4 := by
  rw [ground_path, if_neg (by omega), if_neg (by omega),
    mapOracle_map oracle0 (fun _ => pos0) (fun _ => rfl)]
  rfl

theorem gpDay_ok : ground_path oracle0 0 86400 30 = Except.ok gpDay := by
  rw [ground_path, if_neg (by omega), if_neg (by omega),
    mapOracle_map oracle0 (fun _ => pos0) (fun _ => rfl)]
  rfl

/-- C1 (amended): for a valid window the time grid is half-open: row `i`
carries timestamp `date_from + i * freq`, every timestamp is strictly
before `date_to`, the first omitted timestamp `date_from + length * freq`
is at or past `date_to`, and the number of rows is the ceiling
`(date_to - date_from + freq - 1) / freq` — which agrees with
`floor((date_to - date_from) / freq)` exactly when `freq` divides the
window length, as in the notebook's 24-hour window at 30 s (2880 rows). -/
theorem c1_time_grid (prop : ℤ → Option Position) (a b f : ℤ)
    (hf : 0 < f) (hab : a < b) (gp : List Sample)
    (h : ground_path prop a b f = Except.ok gp) :
    ((gp.length : ℤ) = (b - a + f - 1) / f) ∧
    (∀ i (hi : i < gp.length),
      (gp.get ⟨i, hi⟩).datetime = a + i * f ∧ (gp.get ⟨i, hi⟩).datetime < b) ∧
    b ≤ a + (gp.length : ℤ) * f := by
  have hlen := ground_path_length prop a b f gp h
  refine ⟨?_, ?_, ?_⟩
  · rw [hlen]; exact gridSize_cast a b f hf hab
  · intro i hi
    have hd := ground_path_datetime prop a b f gp h i hi
    refine ⟨hd, ?_⟩
    rw [hd]
    exact grid_point_lt a b f hf hab i (by rw [← hlen]; exact hi)
  · rw [hlen]; exact grid_end_ge a b f hf hab

theorem c1_time_grid_witness : gpDay.length = 2880 := by
  have h := c1_time_grid oracle0 0 86400 30 (by omega) (by omega) gpDay gpDay_ok
  have h1 : ((gpDay.length : ℕ) : ℤ) = (86400 - 0 + 30 - 1) / 30 := h.1
  omega

/-- C1 counterexample: on the window `[0, 100)` at frequency 30 the sampler
produces 4 rows (timestamps 0, 30, 60, 90, all `< 100`), not
`floor((date_to - date_from) / freq) = 3` as the claim's count formula
states. -/
theorem c1_floor_counterexample :
    (ground_path oracle0 0 100 30).map List.length ≠
      Except.ok (((100 : ℤ) - 0) / 30).toNat := by
  intro hcl
  have h4 : (ground_path oracle0 0 100 30).map List.length = Except.ok 4 := by
    rw [gp4_ok]; rfl
  rw [h4] at hcl
  have h3 : (((100 : ℤ) - 0) / 30).toNat = 3 := rfl
  rw [h3] at hcl
  simp at hcl

/-- C2: in every produced ground path, the ascending flag of row `i + 1`
is exactly the comparison of its latitude against the previous row's
latitude, `lat[i+1] >= lat[i]`. -/
theorem c2_ascending_flag (prop : ℤ → Option Position) (a b f : ℤ)
    (gp : List Sample) (h : ground_path prop a b f = Except.ok gp)
    (i : ℕ) (hi : i + 1 < gp.length) :
    (gp.get ⟨i + 1, hi⟩).ascending =
      decide ((gp.get ⟨i, by omega⟩).pos.lat ≤ (gp.get ⟨i + 1, hi⟩).pos.lat) :=
  (ground_path_step prop a b f gp h i hi).2.2.1

theorem c2_ascending_flag_witness :
    (gp4.get ⟨1, by decide⟩).ascending =
      decide ((gp4.get ⟨0, by decide⟩).pos.lat ≤ (gp4.get ⟨1, by decide⟩).pos.lat) :=
  c2_ascending_flag oracle0 0 100 30 gp4 gp4_ok 0 (by decide)

/-- C3: in every produced ground path the orbit counter starts at 0, obeys
`orbit[i+1] = orbit[i] + 1` exactly on a false-to-true transition of the
ascending flag and `orbit[i+1] = orbit[i]` otherwise, and is monotonically
non-decreasing. -/
theorem c3_orbit_counter (prop : ℤ → Option Position) (a b f : ℤ)
    (gp : List Sample) (h : ground_path prop a b f = Except.ok gp) :
    (∀ h0 : 0 < gp.length, (gp.get ⟨0, h0⟩).orbit = 0) ∧
    (∀ i (hi : i + 1 < gp.length),
      (gp.get ⟨i + 1, hi⟩).orbit = (gp.get ⟨i, by omega⟩).orbit +
        (if (gp.get ⟨i, by omega⟩).ascending = false ∧
            (gp.get ⟨i + 1, hi⟩).ascending = true then 1 else 0)) ∧
    (∀ i j (hj : j < gp.length) (hij : i ≤ j),
      (gp.get ⟨i, by omega⟩).orbit ≤ (gp.get ⟨j, hj⟩).orbit) := by
  refine ⟨?_, ?_, ?_⟩
  · intro h0
    obtain ⟨_, _, ps, _, hgp⟩ := ground_path_ok prop a b f gp h
    subst hgp
    exact (build_head_fields a f ps h0).1
  · intro i hi
    exact (ground_path_step prop a b f gp h i hi).2.2.2
  · intro i j hj hij
    obtain ⟨d, rfl⟩ : ∃ d, j = i + d := ⟨j - i, by omega⟩
    exact ground_path_orbit_le prop a b f gp h d i hj

theorem c3_orbit_counter_witness : (gp4.get ⟨0, by decide⟩).orbit = 0 :=
  (c3_orbit_counter oracle0 0 100 30 gp4 gp4_ok).1 (by decide)

/-- C4: a non-positive frequency or a non-positive window makes the
sampler fail with `InvalidArgument`, whatever the oracle does — the
validation precedes any oracle call and no partial output is produced. -/
theorem c4_invalid_window (prop : ℤ → Option Position) (a b f : ℤ)
    (h : f ≤ 0 ∨ b ≤ a) :
    ground_path prop a b f = Except.error SampleError.invalidArgument := by
  rw [ground_path]
  rcases h with h | h
  · rw [if_pos h]
  · by_cases hf : f ≤ 0
    · rw [if_pos hf]
    · rw [if_neg hf, if_pos h]

theorem c4_invalid_window_witness :
    ground_path oracleFail 0 100 (-5) = Except.error SampleError.invalidArgument :=
  c4_invalid_window oracleFail 0 100 (-5) (Or.inl (by omega))

/-- C5: if the oracle fails at a single grid timestamp of a valid window,
the whole sampling call fails with `PropagationError`: the timestamp is
not skipped and no partial ground path is returned. -/
theorem c5_propagation_failfast (prop : ℤ → Option Position) (a b f : ℤ)
    (hf : 0 < f) (hab : a < b) (i : ℕ) (hi : i < gridSize a b f)
    (hfail : prop (a + i * f) = none) :
    ground_path prop a b f = Except.error SampleError.propagationError := by
  have hmem : a + (i : ℤ) * f ∈ timeGrid a b f := by
    rw [timeGrid]
    exact List.mem_map.mpr ⟨i, List.mem_range.mpr hi, rfl⟩
  have hnone := mapOracle_none prop _ _ hmem hfail
  rw [ground_path, if_neg (by omega), if_neg (by omega), hnone]

theorem c5_propagation_failfast_witness :
    ground_path oracleFail 0 100 30 = Except.error SampleError.propagationError :=
  c5_propagation_failfast oracleFail 0 100 30 (by omega) (by omega) 1
    (by decide) (by decide)

/-- C6: in every produced ground path the timestamps are strictly
increasing, with constant spacing of exactly `freq` seconds between
consecutive rows. -/
theorem c6_timestamp_monotone (prop : ℤ → Option Position) (a b f : ℤ)
    (gp : List Sample) (h : ground_path prop a b f = Except.ok gp)
    (i : ℕ) (hi : i + 1 < gp.length) :
    (gp.get ⟨i, by omega⟩).datetime < (gp.get ⟨i + 1, hi⟩).datetime ∧
    (gp.get ⟨i + 1, hi⟩).datetime = (gp.get ⟨i, by omega⟩).datetime + f := by
  have hstep := (ground_path_step prop a b f gp h i hi).1
  have hfpos := (ground_path_ok prop a b f gp h).1
  exact ⟨by omega, hstep⟩

theorem c6_timestamp_monotone_witness :
    (gp4.get ⟨0, by decide⟩).datetime < (gp4.get ⟨1, by decide⟩).datetime ∧
    (gp4.get ⟨1, by decide⟩).datetime = (gp4.get ⟨0, by decide⟩).datetime + 30 :=
  c6_timestamp_monotone oracle0 0 100 30 gp4 gp4_ok 0 (by decide)

/-- C7: the sampler is deterministic — it is a pure function of its inputs
and the oracle's per-timestamp answers, so two runs against oracles that
return the same fixed value at every timestamp produce identical output. -/
theorem c7_deterministic (p1 p2 : ℤ → Option Position) (a b f : ℤ)
    (h : ∀ t, p1 t = p2 t) :
    ground_path p1 a b f = ground_path p2 a b f := by
  have hp : p1 = p2 := funext h
  rw [hp]

theorem c7_deterministic_witness :
    ground_path oracle0 0 100 30 = ground_path oracle0b 0 100 30 :=
  c7_deterministic oracle0 oracle0b 0 100 30 (fun _ => rfl)

/-- C9: every produced ground path is non-empty, and its first row carries
`ascending = true` and `orbit = 0` — the modelled convention for the first
sample, matching the recorded reference run's first row. -/
theorem c9_first_sample (prop : ℤ → Option Position) (a b f : ℤ)
    (gp : List Sample) (h : ground_path prop a b f = Except.ok gp) :
    0 < gp.length ∧
    ∀ h0 : 0 < gp.length,
      (gp.get ⟨0, h0⟩).ascending = true ∧ (gp.get ⟨0, h0⟩).orbit = 0 := by
  obtain ⟨hf, hab, ps, hm, hgp⟩ := ground_path_ok prop a b f gp h
  have hpos : 0 < gp.length := by
    rw [ground_path_length prop a b f gp h]
    exact gridSize_pos a b f hf hab
  refine ⟨hpos, fun h0 => ?_⟩
  subst hgp
  obtain ⟨ho, hasc, _⟩ := build_head_fields a f ps h0
  exact ⟨hasc, ho⟩

theorem c9_first_sample_witness :
    (gp4.get ⟨0, by decide⟩).ascending = true ∧ (gp4.get ⟨0, by decide⟩).orbit = 0 :=
  (c9_first_sample oracle0 0 100 30 gp4 gp4_ok).2 (by decide)

/-- C10: naive window bounds are interpreted on the UTC scale: every output
row's timestamp is the input origin plus `i * freq` with an explicit UTC
offset of zero, and the `datetime` column is duplicate-free, so it is a
valid unique index of the table. -/
theorem c10_utc_index (prop : ℤ → Option Position) (a b f : ℤ)
    (gp : List Sample) (h : ground_path prop a b f = Except.ok gp) :
    (∀ s ∈ gp, s.tzOffset = 0) ∧
    (∀ i (hi : i < gp.length), (gp.get ⟨i, hi⟩).datetime = a + i * f) ∧
    (gp.map Sample.datetime).Nodup := by
  obtain ⟨hf, hab, ps, hm, hgp⟩ := ground_path_ok prop a b f gp h
  refine ⟨?_, fun i hi => ground_path_datetime prop a b f gp h i hi, ?_⟩
  · intro s hs
    rw [hgp] at hs
    exact build_tzOffset a f ps s hs
  · have hp : List.Pairwise (fun s s' : Sample => s.datetime ≠ s'.datetime) gp := by
      rw [List.pairwise_iff_get]
      intro i j hij
      have hdi := ground_path_datetime prop a b f gp h i i.isLt
      have hdj := ground_path_datetime prop a b f gp h j j.isLt
      rw [hdi, hdj]
      have hlt : ((i : ℕ) : ℤ) * f < ((j : ℕ) : ℤ) * f := by
        apply mul_lt_mul_of_pos_right _ hf
        have hv : (i : ℕ) < (j : ℕ) := hij
        exact_mod_cast hv
      omega
    exact List.pairwise_map.mpr hp

theorem c10_utc_index_witness : (gp4.map Sample.datetime).Nodup :=
  (c10_utc_index oracle0 0 100 30 gp4 gp4_ok).2.2

theorem cen_facts (z : ℕ) :
    cenOf z ≤ 3 ∧ 36524 * cenOf z ≤ doeOf z ∧ docOf z < 36525 := by
  have h1 : doeOf z < 146097 := Nat.mod_lt _ (by norm_num)
  unfold docOf cenOf
  omega

theorem yoc_facts (z : ℕ) :
    yocOf z ≤ 99 ∧ 365 * yocOf z + yocOf z / 4 ≤ docOf z ∧ doyOf z ≤ 365 := by
  have h := cen_facts z
  unfold doyOf yocOf
  omega

theorem mp_facts (z : ℕ) :
    mpOf z ≤ 11 ∧ 153 * mpOf z ≤ 5 * doyOf z + 2 ∧
    (153 * mpOf z + 2) / 5 ≤ doyOf z ∧ 1 ≤ dayOf z ∧ dayOf z ≤ 31 := by
  have h := yoc_facts z
  unfold dayOf mpOf
  omega

theorem calendar_decompose (z : ℕ) :
    doeOf z = 36524 * cenOf z + 365 * yocOf z + yocOf z / 4 + doyOf z ∧
    z + 719468 = 146097 * eraOf z + doeOf z := by
  have hc := cen_facts z
  have hy := yoc_facts z
  constructor
  · unfold doyOf docOf at *
    omega
  · unfold eraOf doeOf
    omega

theorem era_facts (z : ℕ) (hz : z < 2932897) :
    eraOf z ≤ 24 ∧ (eraOf z = 24 → doeOf z ≤ 146036) := by
  unfold eraOf doeOf
  omega

theorem year_le (z : ℕ) (hz : z < 2932897) : yearOf z ≤ 9999 := by
  have hc := cen_facts z
  have hy := yoc_facts z
  have hm := mp_facts z
  have hd := calendar_decompose z
  have he := era_facts z hz
  unfold yearOf monthOf yoeOf
  split_ifs <;> omega

theorem month_bounds (z : ℕ) : 1 ≤ monthOf z ∧ monthOf z ≤ 12 := by
  have hm := mp_facts z
  unfold monthOf
  split_ifs <;> omega

theorem civil_roundtrip (z : ℕ) :
    daysFromCivil (yearOf z) (monthOf z) (dayOf z) = z := by
  have hc := cen_facts z
  have hy := yoc_facts z
  have hm := mp_facts z
  have hd := calendar_decompose z
  have hj : (100 * cenOf z + yocOf z + 400 * eraOf z) / 400 = eraOf z := by omega
  have hR : (100 * cenOf z + yocOf z + 400 * eraOf z) % 400
      = 100 * cenOf z + yocOf z := by omega
  have hq4 : (100 * cenOf z + yocOf z) / 4 = 25 * cenOf z + yocOf z / 4 := by omega
  have hq100 : (100 * cenOf z + yocOf z) / 100 = cenOf z := by omega
  have h5 : (153 * mpOf z + 2) / 5 + (doyOf z - (153 * mpOf z + 2) / 5 + 1) - 1
      = doyOf z := by omega
  unfold daysFromCivil yearOf monthOf dayOf yoeOf
  rcases Nat.lt_or_ge (mpOf z) 10 with hmp | hmp
  · have h1 : ¬ mpOf z + 3 ≤ 2 := by omega
    have h2 : 2 < mpOf z + 3 := by omega
    simp only [if_pos hmp, if_neg h1, if_pos h2, Nat.add_sub_cancel, Nat.add_zero]
    rw [hj, hR, hq4, hq100, h5]
    omega
  · have h0 : ¬ mpOf z < 10 := by omega
    have h1 : mpOf z - 9 ≤ 2 := by omega
    have h2 : ¬ 2 < mpOf z - 9 := by omega
    have h3 : mpOf z - 9 + 9 = mpOf z := by omega
    have h4 : 100 * cenOf z + yocOf z + 400 * eraOf z + 1 - 1
        = 100 * cenOf z + yocOf z + 400 * eraOf z := by omega
    simp only [if_neg h0, if_pos h1, if_neg h2, h3, h4]
    rw [hj, hR, hq4, hq100, h5]
    omega

theorem digit_char_facts : ∀ d : ℕ, d < 10 →
    digitVal (digitChar d) = d ∧ isDigitChar (digitChar d) = true ∧
    digitChar d ≠ ',' ∧ digitChar d ≠ '\n' ∧ digitChar d ≠ '.' ∧
    digitChar d ≠ '-' := by decide

theorem digitVal_digitChar_mod (x : ℕ) : digitVal (digitChar (x % 10)) = x % 10 :=
  (digit_char_facts _ (Nat.mod_lt x (by norm_num))).1

theorem isDigitChar_digitChar_mod (x : ℕ) : isDigitChar (digitChar (x % 10)) = true :=
  (digit_char_facts _ (Nat.mod_lt x (by norm_num))).2.1

theorem isDigits_pad2 (n : ℕ) : IsDigits (pad2 n) := by
  intro c hc
  simp only [pad2, List.mem_cons, List.not_mem_nil, or_false] at hc
  rcases hc with h | h <;>
    exact ⟨_, Nat.mod_lt _ (by norm_num), h⟩

theorem isDigits_pad4 (n : ℕ) : IsDigits (pad4 n) := by
  intro c hc
  simp only [pad4, List.mem_cons, List.not_mem_nil, or_false] at hc
  rcases hc with h | h | h | h <;>
    exact ⟨_, Nat.mod_lt _ (by norm_num), h⟩

theorem isDigits_pad6 (n : ℕ) : IsDigits (pad6 n) := by
  intro c hc
  simp only [pad6, List.mem_cons, List.not_mem_nil, or_false] at hc
  rcases hc with h | h | h | h | h | h <;>
    exact ⟨_, Nat.mod_lt _ (by norm_num), h⟩

theorem isDigits_renderNat (n : ℕ) : IsDigits (renderNat n) := by
  intro c hc
  rw [renderNat] at hc
  by_cases h0 : n = 0
  · rw [if_pos h0] at hc
    simp only [List.mem_cons, List.not_mem_nil, or_false] at hc
    exact ⟨0, by norm_num, hc⟩
  · rw [if_neg h0] at hc
    rw [List.mem_reverse, List.mem_map] at hc
    obtain ⟨d, hd, rfl⟩ := hc
    exact ⟨d, Nat.digits_lt_base (by norm_num) hd, rfl⟩

theorem IsDigits.not_special {cs : List Char} (h : IsDigits cs) {c : Char}
    (hc : c ∈ cs) : c ≠ ',' ∧ c ≠ '\n' ∧ c ≠ '.' ∧ c ≠ '-' := by
  obtain ⟨d, hd, rfl⟩ := h c hc
  exact ⟨(digit_char_facts d hd).2.2.1, (digit_char_facts d hd).2.2.2.1,
    (digit_char_facts d hd).2.2.2.2.1, (digit_char_facts d hd).2.2.2.2.2⟩

theorem IsDigits.all_digit {cs : List Char} (h : IsDigits cs) :
    cs.all isDigitChar = true := by
  rw [List.all_eq_true]
  intro c hc
  obtain ⟨d, hd, rfl⟩ := h c hc
  exact (digit_char_facts d hd).2.1

theorem foldl_digits_reverse (l : List ℕ) (hl : ∀ d ∈ l, d < 10) (a : ℕ) :
    List.foldl (fun x c => 10 * x + digitVal c) a ((l.map digitChar).reverse)
      = a * 10 ^ l.length + Nat.ofDigits 10 l := by
  induction l generalizing a with
  | nil => simp [Nat.ofDigits_nil]
  | cons d ds ih =>
    have hd : d < 10 := hl d (by simp)
    have hds : ∀ x ∈ ds, x < 10 := fun x hx => hl x (by simp [hx])
    rw [List.map_cons, List.reverse_cons, List.foldl_append, ih hds a]
    simp only [List.foldl_cons, List.foldl_nil]
    rw [(digit_char_facts d hd).1, Nat.ofDigits_cons]
    simp only [List.length_cons]
    ring

theorem digitsVal_renderNat (n : ℕ) : digitsVal (renderNat n) = n := by
  rw [renderNat]
  by_cases h0 : n = 0
  · rw [if_pos h0, h0]
    decide
  · rw [if_neg h0, digitsVal,
      foldl_digits_reverse _ (fun d hd => Nat.digits_lt_base (by norm_num) hd) 0]
    simp [Nat.ofDigits_digits]

theorem renderNat_ne_nil (n : ℕ) : renderNat n ≠ [] := by
  rw [renderNat]
  by_cases h0 : n = 0
  · rw [if_pos h0]; simp
  · rw [if_neg h0]
    simp [Nat.digits_ne_nil_iff_ne_zero.mpr h0]

theorem parseNat_renderNat (n : ℕ) : parseNat (renderNat n) = some n := by
  rw [parseNat, if_pos ⟨renderNat_ne_nil n, (isDigits_renderNat n).all_digit⟩,
    digitsVal_renderNat]

theorem digitsVal_pad6 (n : ℕ) (hn : n < 1000000) : digitsVal (pad6 n) = n := by
  rw [pad6, digitsVal]
  simp only [List.foldl_cons, List.foldl_nil, digitVal_digitChar_mod]
  omega

theorem pad6_ne_nil (n : ℕ) : pad6 n ≠ [] := by
  rw [pad6]; simp

theorem parseNat_pad6 (n : ℕ) (hn : n < 1000000) : parseNat (pad6 n) = some n := by
  rw [parseNat, if_pos ⟨pad6_ne_nil n, (isDigits_pad6 n).all_digit⟩, digitsVal_pad6 n hn]

set_option maxHeartbeats 2000000 in
theorem parseDateTime_renderDateTime (t : ℤ) (h1 : 0 ≤ t)
    (h2 : t < 253402300800) : parseDateTime (renderDateTime t) = some t := by
  have hzlt : t.toNat / 86400 < 2932897 := by omega
  have hy := year_le (t.toNat / 86400) hzlt
  have hmb := month_bounds (t.toNat / 86400)
  have hdb := mp_facts (t.toNat / 86400)
  simp only [renderDateTime, pad4, pad2, List.cons_append, List.nil_append]
  simp only [parseDateTime]
  split_ifs with hc
  · rw [Option.some_inj]
    simp only [digitVal_digitChar_mod]
    have hy4 : 1000 * (yearOf (t.toNat / 86400) / 1000 % 10)
        + 100 * (yearOf (t.toNat / 86400) / 100 % 10)
        + 10 * (yearOf (t.toNat / 86400) / 10 % 10)
        + yearOf (t.toNat / 86400) % 10 = yearOf (t.toNat / 86400) := by omega
    have hm2 : 10 * (monthOf (t.toNat / 86400) / 10 % 10)
        + monthOf (t.toNat / 86400) % 10 = monthOf (t.toNat / 86400) := by omega
    have hd2 : 10 * (dayOf (t.toNat / 86400) / 10 % 10)
        + dayOf (t.toNat / 86400) % 10 = dayOf (t.toNat / 86400) := by omega
    rw [hy4, hm2, hd2, civil_roundtrip (t.toNat / 86400)]
    omega
  · exfalso
    exact hc (by simp [isDigitChar_digitChar_mod])

theorem splitOnChar_not_mem (sep : Char) (cs : List Char) (h : sep ∉ cs) :
    splitOnChar sep cs = [cs] := by
  induction cs with
  | nil => rfl
  | cons c cs ih =>
    have hc : ¬ c = sep := by
      intro hh
      exact h (by rw [hh]; exact List.mem_cons_self _ _)
    rw [splitOnChar, if_neg hc, ih (fun hm => h (List.mem_cons_of_mem _ hm))]

theorem splitOnChar_append (sep : Char) (l1 l2 : List Char) (h : sep ∉ l1) :
    splitOnChar sep (l1 ++ sep :: l2) = l1 :: splitOnChar sep l2 := by
  induction l1 with
  | nil => rw [List.nil_append, splitOnChar, if_pos rfl]
  | cons c l1 ih =>
    have hc : ¬ c = sep := by
      intro hh
      exact h (by rw [hh]; exact List.mem_cons_self _ _)
    rw [List.cons_append, splitOnChar, if_neg hc,
      ih (fun hm => h (List.mem_cons_of_mem _ hm))]

theorem splitOnChar_joinSep (sep : Char) (rows : List (List Char))
    (h : ∀ r ∈ rows, sep ∉ r) (hne : rows ≠ []) :
    splitOnChar sep (joinSep sep rows) = rows := by
  induction rows with
  | nil => exact absurd rfl hne
  | cons r rs ih =>
    cases rs with
    | nil => exact splitOnChar_not_mem sep r (h r (List.mem_cons_self _ _))
    | cons r2 rs2 =>
      show splitOnChar sep (r ++ sep :: joinSep sep (r2 :: rs2)) = _
      rw [splitOnChar_append sep r _ (h r (List.mem_cons_self _ _)),
        ih (fun x hx => h x (List.mem_cons_of_mem _ hx)) (by simp)]

theorem dot_not_mem_renderNat (n : ℕ) : '.' ∉ renderNat n := fun hm =>
  ((isDigits_renderNat n).not_special hm).2.2.1 rfl

theorem dot_not_mem_pad6 (n : ℕ) : '.' ∉ pad6 n := fun hm =>
  ((isDigits_pad6 n).not_special hm).2.2.1 rfl

theorem parseRatMag_render (I F : ℕ) (hF : F < 1000000) :
    parseRatMag (renderNat I ++ '.' :: pad6 F)
      = some (((I * 1000000 + F : ℕ) : ℚ) / 1000000) := by
  have hsplit : splitOnChar '.' (renderNat I ++ '.' :: pad6 F)
      = [renderNat I, pad6 F] := by
    rw [splitOnChar_append '.' _ _ (dot_not_mem_renderNat I),
      splitOnChar_not_mem '.' _ (dot_not_mem_pad6 F)]
  have hlen : (pad6 F).length = 6 := rfl
  simp only [parseRatMag, hsplit, parseNat_renderNat, parseNat_pad6 F hF, hlen,
    if_pos]

theorem parseRat_renderRat (q : ℚ) : parseRat (renderRat q) = some (rnd q) := by
  have hNval : (ratScaled q).natAbs / 1000000 * 1000000 + (ratScaled q).natAbs % 1000000
      = (ratScaled q).natAbs := by omega
  rcases lt_or_ge (ratScaled q) 0 with hneg | hpos
  · rw [renderRat, if_pos hneg, List.singleton_append, parseRat, List.head?_cons,
      List.tail_cons, if_pos rfl,
      parseRatMag_render _ _ (Nat.mod_lt _ (by norm_num))]
    rw [Option.map_some', Option.some_inj, hNval, rnd]
    have habs : (((ratScaled q).natAbs : ℕ) : ℚ) = -((ratScaled q : ℤ) : ℚ) := by
      rw [Int.cast_natAbs, abs_of_neg hneg, Int.cast_neg]
    rw [habs]
    ring
  · have hhead : ∃ c cs', renderNat ((ratScaled q).natAbs / 1000000) = c :: cs' ∧
        ¬ c = '-' := by
      obtain ⟨c, cs', hc⟩ :=
        List.exists_cons_of_ne_nil (renderNat_ne_nil ((ratScaled q).natAbs / 1000000))
      refine ⟨c, cs', hc, ?_⟩
      have hsp := (isDigits_renderNat ((ratScaled q).natAbs / 1000000)).not_special
        (by rw [hc]; exact List.mem_cons_self c cs')
      exact hsp.2.2.2
    obtain ⟨c, cs', hc, hcd⟩ := hhead
    rw [renderRat, if_neg (not_lt.mpr hpos), List.nil_append, hc, List.cons_append,
      parseRat, if_neg (by simp [hcd]), ← List.cons_append, ← hc,
      parseRatMag_render _ _ (Nat.mod_lt _ (by norm_num))]
    rw [Option.some_inj, hNval, rnd]
    have habs : (((ratScaled q).natAbs : ℕ) : ℚ) = ((ratScaled q : ℤ) : ℚ) := by
      rw [Int.cast_natAbs, abs_of_nonneg hpos]
    rw [habs]

theorem rnd_close (q : ℚ) : |rnd q - q| ≤ 1 / 1000000 := by
  have h := abs_sub_round (q * 1000000)
  have key : rnd q - q = (((ratScaled q) : ℚ) - q * 1000000) / 1000000 := by
    rw [rnd]; ring
  rw [key, abs_div, abs_of_pos (by norm_num : (0 : ℚ) < 1000000), abs_sub_comm]
  have h2 : |q * 1000000 - ((ratScaled q) : ℚ)| ≤ 1 / 2 := by
    rw [ratScaled]; exact h
  calc |q * 1000000 - ((ratScaled q) : ℚ)| / 1000000 ≤ (1 / 2) / 1000000 := by
        gcongr
    _ ≤ 1 / 1000000 := by norm_num

theorem parseBool_renderBool (b : Bool) : parseBool (renderBool b) = some b := by
  cases b <;> rfl

theorem comma_ne_digitChar (x : ℕ) : (',' = digitChar (x % 10)) ↔ False :=
  iff_false_intro
    (fun h => (digit_char_facts _ (Nat.mod_lt x (by norm_num))).2.2.1 h.symm)

theorem newline_ne_digitChar (x : ℕ) : ('\n' = digitChar (x % 10)) ↔ False :=
  iff_false_intro
    (fun h => (digit_char_facts _ (Nat.mod_lt x (by norm_num))).2.2.2.1 h.symm)

theorem comma_not_mem_renderDateTime (t : ℤ) : ',' ∉ renderDateTime t := by
  intro hc
  simp only [renderDateTime, pad4, pad2, List.mem_append, List.mem_cons,
    List.not_mem_nil, or_false, comma_ne_digitChar, false_or] at hc
  revert hc
  decide

theorem newline_not_mem_renderDateTime (t : ℤ) : '\n' ∉ renderDateTime t := by
  intro hc
  simp only [renderDateTime, pad4, pad2, List.mem_append, List.mem_cons,
    List.not_mem_nil, or_false, newline_ne_digitChar, false_or] at hc
  revert hc
  decide

theorem renderRat_chars (q : ℚ) : ∀ c ∈ renderRat q, c ≠ ',' ∧ c ≠ '\n' := by
  intro c hc
  rw [renderRat] at hc
  rcases List.mem_append.mp hc with h | h
  · by_cases hs : ratScaled q < 0
    · rw [if_pos hs] at h
      simp only [List.mem_cons, List.not_mem_nil, or_false] at h
      subst h
      exact ⟨by decide, by decide⟩
    · rw [if_neg hs] at h
      simp at h
  · rcases List.mem_append.mp h with h2 | h2
    · exact ⟨((isDigits_renderNat _).not_special h2).1,
        ((isDigits_renderNat _).not_special h2).2.1⟩
    · rcases List.mem_cons.mp h2 with h3 | h3
      · subst h3
        exact ⟨by decide, by decide⟩
      · exact ⟨((isDigits_pad6 _).not_special h3).1,
          ((isDigits_pad6 _).not_special h3).2.1⟩

theorem renderNat_chars (n : ℕ) : ∀ c ∈ renderNat n, c ≠ ',' ∧ c ≠ '\n' :=
  fun _ hc => ⟨((isDigits_renderNat n).not_special hc).1,
    ((isDigits_renderNat n).not_special hc).2.1⟩

theorem renderBool_chars (b : Bool) : ∀ c ∈ renderBool b, c ≠ ',' ∧ c ≠ '\n' := by
  cases b <;> decide

theorem comma_not_mem_renderRat (q : ℚ) : ',' ∉ renderRat q :=
  fun hm => (renderRat_chars q ',' hm).1 rfl

theorem comma_not_mem_renderBool (b : Bool) : ',' ∉ renderBool b :=
  fun hm => (renderBool_chars b ',' hm).1 rfl

theorem comma_not_mem_renderNat (n : ℕ) : ',' ∉ renderNat n :=
  fun hm => (renderNat_chars n ',' hm).1 rfl

theorem newline_not_mem_renderRow (s : Sample) : '\n' ∉ renderRow s := by
  intro hm
  rw [renderRow] at hm
  rcases List.mem_append.mp hm with h | h
  · exact newline_not_mem_renderDateTime _ h
  · rcases List.mem_cons.mp h with h | h
    · exact absurd h (by decide)
    · rcases List.mem_append.mp h with h | h
      · exact (renderRat_chars _ _ h).2 rfl
      · rcases List.mem_cons.mp h with h | h
        · exact absurd h (by decide)
        · rcases List.mem_append.mp h with h | h
          · exact (renderRat_chars _ _ h).2 rfl
          · rcases List.mem_cons.mp h with h | h
            · exact absurd h (by decide)
            · rcases List.mem_append.mp h with h | h
              · exact (renderRat_chars _ _ h).2 rfl
              · rcases List.mem_cons.mp h with h | h
                · exact absurd h (by decide)
                · rcases List.mem_append.mp h with h | h
                  · exact (renderRat_chars _ _ h).2 rfl
                  · rcases List.mem_cons.mp h with h | h
                    · exact absurd h (by decide)
                    · rcases List.mem_append.mp h with h | h
                      · exact (renderRat_chars _ _ h).2 rfl
                      · rcases List.mem_cons.mp h with h | h
                        · exact absurd h (by decide)
                        · rcases List.mem_append.mp h with h | h
                          · exact (renderRat_chars _ _ h).2 rfl
                          · rcases List.mem_cons.mp h with h | h
                            · exact absurd h (by decide)
                            · rcases List.mem_append.mp h with h | h
                              · exact (renderBool_chars _ _ h).2 rfl
                              · rcases List.mem_cons.mp h with h | h
                                · exact absurd h (by decide)
                                · exact (renderNat_chars _ _ h).2 rfl

theorem renderRow_split (s : Sample) :
    splitOnChar ',' (renderRow s) =
      [renderDateTime s.datetime, renderRat s.pos.X, renderRat s.pos.Y,
       renderRat s.pos.Z, renderRat s.pos.lat, renderRat s.pos.lon,
       renderRat s.pos.elevation, renderBool s.ascending, renderNat s.orbit] := by
  rw [renderRow,
    splitOnChar_append ',' _ _ (comma_not_mem_renderDateTime _),
    splitOnChar_append ',' _ _ (comma_not_mem_renderRat _),
    splitOnChar_append ',' _ _ (comma_not_mem_renderRat _),
    splitOnChar_append ',' _ _ (comma_not_mem_renderRat _),
    splitOnChar_append ',' _ _ (comma_not_mem_renderRat _),
    splitOnChar_append ',' _ _ (comma_not_mem_renderRat _),
    splitOnChar_append ',' _ _ (comma_not_mem_renderRat _),
    splitOnChar_append ',' _ _ (comma_not_mem_renderBool _),
    splitOnChar_not_mem ',' _ (comma_not_mem_renderNat _)]

theorem parseRow_renderRow (s : Sample) (h1 : 0 ≤ s.datetime)
    (h2 : s.datetime < 253402300800) :
    parseRow (renderRow s) = some (approxSample s) := by
  rw [parseRow, renderRow_split s, parseCells,
    parseDateTime_renderDateTime s.datetime h1 h2,
    parseRat_renderRat, parseRat_renderRat, parseRat_renderRat, parseRat_renderRat,
    parseRat_renderRat, parseRat_renderRat, parseBool_renderBool, parseNat_renderNat]
  rfl

theorem parseRows_map (gp : List Sample)
    (h : ∀ s ∈ gp, 0 ≤ s.datetime ∧ s.datetime < 253402300800) :
    parseRows (gp.map renderRow) = some (gp.map approxSample) := by
  induction gp with
  | nil => rfl
  | cons s gp ih =>
    have hs := h s (List.mem_cons_self _ _)
    rw [List.map_cons, List.map_cons, parseRows, parseRow_renderRow s hs.1 hs.2,
      ih (fun x hx => h x (List.mem_cons_of_mem _ hx))]
    rfl

theorem parseCsv_toCsv (gp : List Sample)
    (h : ∀ s ∈ gp, 0 ≤ s.datetime ∧ s.datetime < 253402300800) :
    parseCsv (toCsv gp) = some (gp.map approxSample) := by
  have hsplit : splitOnChar '\n' (toCsv gp) = csvHeader :: gp.map renderRow := by
    rw [toCsv]
    apply splitOnChar_joinSep
    · intro r hr
      rcases List.mem_cons.mp hr with h1 | h1
      · subst h1
        decide
      · obtain ⟨s, _, rfl⟩ := List.mem_map.mp h1
        exact newline_not_mem_renderRow s
    · simp
  simp only [parseCsv, hsplit, if_pos rfl]
  exact parseRows_map gp h

/-- C8: serializing a Ground Path to CSV (header row plus one data row per
sample, `datetime` as ISO-8601 with UTC offset) and parsing the CSV back
reproduces the `datetime`, `ascending` and `orbit` columns exactly and
every numeric column within the fixed-point tolerance of one millionth. -/
theorem c8_csv_roundtrip (gp : List Sample)
    (h : ∀ s ∈ gp, 0 ≤ s.datetime ∧ s.datetime < 253402300800) :
    parseCsv (toCsv gp) = some (gp.map approxSample) ∧
    ∀ s ∈ gp,
      (approxSample s).datetime = s.datetime ∧
      (approxSample s).ascending = s.ascending ∧
      (approxSample s).orbit = s.orbit ∧
      |(approxSample s).pos.X - s.pos.X| ≤ 1 / 1000000 ∧
      |(approxSample s).pos.Y - s.pos.Y| ≤ 1 / 1000000 ∧
      |(approxSample s).pos.Z - s.pos.Z| ≤ 1 / 1000000 ∧
      |(approxSample s).pos.lat - s.pos.lat| ≤ 1 / 1000000 ∧
      |(approxSample s).pos.lon - s.pos.lon| ≤ 1 / 1000000 ∧
      |(approxSample s).pos.elevation - s.pos.elevation| ≤ 1 / 1000000 := by
  refine ⟨parseCsv_toCsv gp h, fun s _ => ⟨rfl, rfl, rfl, ?_, ?_, ?_, ?_, ?_, ?_⟩⟩ <;>
    exact rnd_close _

theorem c8_csv_roundtrip_witness :
    parseCsv (toCsv gpW) = some (gpW.map approxSample) :=
  (c8_csv_roundtrip gpW (by decide)).1

end OrbitSim
